import Mathlib

/-!
# gitlab-merge-request-resource: `check` and `in`

A shallow embedding of the Concourse resource for GitLab merge requests
(`models.go`, `check/cmd/main.go`, `in/cmd/main.go`) and theorems about it.

A Go string is a sequence of bytes, a `*T` is an `Option T`, a `time.Time`
is its instant. The GitLab service is the record `Api`: the answer of each
client method to each call. The process environment and the library
functions that the program calls are the record `Runtime`; the theorems
about `check` hold whatever these functions answer. For
`createRepositoryUrl`, whose result is a URL text, the functions of Go's
`net/url` are modelled as well (`Parse`, `URL.String` and what they call).
-/

namespace GitlabMR

set_option maxRecDepth 100000

/-! ## Time -/

/-- An instant of Go's `time.Time`, counted in nanoseconds from the zero
`Time` (January 1, year 1, 00:00:00 UTC). Instants before the zero `Time`
are negative. `After` compares instants only, so location and monotonic
reading are left out. A `*time.Time` is an `Option Time`. -/
abbrev Time := Int

/-- The zero value `time.Time{}`. -/
def Time.zero : Time := 0

/-- The method `t.After(u)`: t is strictly later than u. -/
def Time.After (t u : Time) : Bool := decide (u < t)

/-! ## Strings -/

/-- A byte. -/
abbrev Byte := Fin 256

/-- A Go string: a sequence of bytes, not necessarily valid UTF-8. -/
abbrev GoString := List Byte

/-- The UTF-8 encoding of one character. -/
def utf8Char (c : Char) : List Byte :=
  let n := c.toNat
  if n < 0x80 then [Fin.ofNat n]
  else if n < 0x800 then [Fin.ofNat (0xC0 + n / 64), Fin.ofNat (0x80 + n % 64)]
  else if n < 0x10000 then
    [Fin.ofNat (0xE0 + n / 4096), Fin.ofNat (0x80 + n / 64 % 64), Fin.ofNat (0x80 + n % 64)]
  else
    [Fin.ofNat (0xF0 + n / 262144), Fin.ofNat (0x80 + n / 4096 % 64),
     Fin.ofNat (0x80 + n / 64 % 64), Fin.ofNat (0x80 + n % 64)]

/-- The Go string a string literal of the source stands for. -/
def go (s : String) : GoString := s.data.flatMap utf8Char

instance : Coe String GoString := ⟨go⟩

/-- The function `strings.Contains(s, substr)`. -/
def Contains (s substr : GoString) : Bool := decide (substr <:+: s)

/-! ## models.go -/

/-- One entry of `Source.SubmoduleCreds`. -/
structure SubmoduleCred where
  Host : GoString
  Username : GoString
  Password : GoString
deriving DecidableEq, Repr

/-- The struct `Source`. -/
structure Source where
  URI : GoString
  PrivateToken : GoString
  PrivateKey : GoString
  Insecure : Bool
  SkipWorkInProgress : Bool
  SkipNotMergeable : Bool
  SkipTriggerComment : Bool
  ConcourseUrl : GoString
  PipelineName : GoString
  Labels : List GoString
  TargetBranch : GoString
  Submodules : GoString
  SubmoduleCreds : List SubmoduleCred
deriving DecidableEq, Repr

/-- The struct `Version`: `UpdatedAt` is a `*time.Time`. -/
structure Version where
  ID : Int
  UpdatedAt : Option Time
deriving DecidableEq, Repr

/-- The type `url.Userinfo`. -/
structure Userinfo where
  username : GoString
  password : GoString
  passwordSet : Bool
deriving DecidableEq, Repr

/-- The type `url.URL`. -/
structure URL where
  Scheme : GoString
  Opaque : GoString
  User : Option Userinfo
  Host : GoString
  Path : GoString
  RawPath : GoString
  OmitHost : Bool
  ForceQuery : Bool
  RawQuery : GoString
  Fragment : GoString
  RawFragment : GoString
deriving DecidableEq, Repr

/-! ## The package `net/url`

The functions of Go's `net/url` that `createRepositoryUrl` and
`GetTargetURL` call, on byte strings, as of Go 1.19 and later (where a URL
has the field `OmitHost`). An error result is `none`. -/

/-- The byte of an ASCII character. -/
def ch (c : Char) : Byte := Fin.ofNat c.toNat

/-- A byte in `a`..`z` or `A`..`Z`. -/
def isLetter (c : Byte) : Bool :=
  (ch 'a' ≤ c && c ≤ ch 'z') || (ch 'A' ≤ c && c ≤ ch 'Z')

/-- A byte in `0`..`9`. -/
def isDigit (c : Byte) : Bool := ch '0' ≤ c && c ≤ ch '9'

/-- The function `strings.Index`: where `substr` first occurs in `s`. -/
def Index : GoString → GoString → Option Nat
  | [], substr => if substr = [] then some 0 else none
  | c :: s, substr =>
    if substr.isPrefixOf (c :: s) then some 0
    else (Index s substr).map (fun i => i + 1)

/-- The function `strings.LastIndex`: where `substr` last occurs in `s`. -/
def LastIndex : GoString → GoString → Option Nat
  | [], substr => if substr = [] then some 0 else none
  | c :: s, substr =>
    match LastIndex s substr with
    | some i => some (i + 1)
    | none => if substr.isPrefixOf (c :: s) then some 0 else none

/-- The function `strings.Cut`: the text before and after the first `sep`. -/
def Cut (s sep : GoString) : GoString × GoString × Bool :=
  match Index s sep with
  | some i => (s.take i, s.drop (i + sep.length), true)
  | none => (s, [], false)

/-- The function `strings.ToLower` on ASCII text. -/
def ToLower (s : GoString) : GoString :=
  s.map (fun c => if ch 'A' ≤ c && c ≤ ch 'Z' then Fin.ofNat (c.val + 32) else c)

/-- The function `ishex`. -/
def ishex (c : Byte) : Bool :=
  isDigit c || (ch 'a' ≤ c && c ≤ ch 'f') || (ch 'A' ≤ c && c ≤ ch 'F')

/-- The function `unhex`. -/
def unhex (c : Byte) : Nat :=
  if isDigit c then c.val - 48
  else if ch 'a' ≤ c && c ≤ ch 'f' then c.val - 97 + 10
  else if ch 'A' ≤ c && c ≤ ch 'F' then c.val - 65 + 10
  else 0

/-- The digit `upperhex[n]` of `"0123456789ABCDEF"`. -/
def upperhex (n : Nat) : Byte :=
  if n < 10 then Fin.ofNat (48 + n) else Fin.ofNat (55 + n)

/-- The type `encoding`. -/
inductive encoding
  | encodePath
  | encodePathSegment
  | encodeHost
  | encodeZone
  | encodeUserPassword
  | encodeQueryComponent
  | encodeFragment
deriving DecidableEq, Repr

/-- The function `shouldEscape`. Byte 39 is the apostrophe, byte 34 the
double quote. -/
def shouldEscape (c : Byte) (mode : encoding) : Bool :=
  if isLetter c || isDigit c then false
  else if (mode = .encodeHost || mode = .encodeZone)
      && (c ∈ go "!$&()*+,;=:[]<>" || c = 39 || c = 34) then false
  else if c ∈ go "-_.~" then false
  else if c ∈ go "$&+,/:;=?@"
      && mode ≠ .encodeHost && mode ≠ .encodeZone then
    match mode with
    | .encodePath => c = ch '?'
    | .encodePathSegment => c = ch '/' || c = ch ';' || c = ch ',' || c = ch '?'
    | .encodeUserPassword => c = ch '@' || c = ch '/' || c = ch '?' || c = ch ':'
    | .encodeQueryComponent => true
    | _ => false
  else if mode = .encodeFragment && c ∈ go "!()*" then false
  else true

/-- The function `escape`. -/
def escape (s : GoString) (mode : encoding) : GoString :=
  s.flatMap (fun c =>
    if c = ch ' ' && mode = .encodeQueryComponent then [ch '+']
    else if shouldEscape c mode then [ch '%', upperhex (c.val / 16), upperhex (c.val % 16)]
    else [c])

/-- The function `unescape`. -/
def unescape (mode : encoding) : GoString → Option GoString
  | [] => some []
  | c :: rest =>
    if c = ch '%' then
      match rest with
      | h₁ :: h₂ :: rest' =>
        if !(ishex h₁ && ishex h₂) then none
        else if mode = .encodeHost && unhex h₁ < 8 && [c, h₁, h₂] ≠ go "%25" then none
        else if mode = .encodeZone && [c, h₁, h₂] ≠ go "%25"
            && (Fin.ofNat (unhex h₁ * 16 + unhex h₂) : Byte) ≠ ch ' '
            && shouldEscape (Fin.ofNat (unhex h₁ * 16 + unhex h₂)) .encodeHost then none
        else (unescape mode rest').map (fun t => Fin.ofNat (unhex h₁ * 16 + unhex h₂) :: t)
      | _ => none
    else if c = ch '+' then
      (unescape mode rest).map
        (fun t => (if mode = .encodeQueryComponent then ch ' ' else ch '+') :: t)
    else if (mode = .encodeHost || mode = .encodeZone) && c.val < 0x80
        && shouldEscape c .encodeHost then none
    else (unescape mode rest).map (fun t => c :: t)

/-- The function `QueryEscape`. -/
def QueryEscape (s : GoString) : GoString := escape s .encodeQueryComponent

/-- The function `UserPassword`. -/
def UserPassword (username password : GoString) : Userinfo :=
  { username := username, password := password, passwordSet := true }

/-- The method `(*Userinfo).String`. -/
def Userinfo.String (u : Userinfo) : GoString :=
  let s := escape u.username .encodeUserPassword
  if u.passwordSet then s ++ go ":" ++ escape u.password .encodeUserPassword else s

/-- The loop of `getScheme` from byte `i` on. -/
def getSchemeFrom (rawURL : GoString) : Nat → GoString → Option (GoString × GoString)
  | _, [] => some ([], rawURL)
  | i, c :: rest =>
    if isLetter c then getSchemeFrom rawURL (i + 1) rest
    else if isDigit c || c = ch '+' || c = ch '-' || c = ch '.' then
      if i = 0 then some ([], rawURL) else getSchemeFrom rawURL (i + 1) rest
    else if c = ch ':' then
      if i = 0 then none else some (rawURL.take i, rawURL.drop (i + 1))
    else some ([], rawURL)

/-- The function `getScheme`: scheme and rest, `none` for "missing protocol
scheme". -/
def getScheme (rawURL : GoString) : Option (GoString × GoString) :=
  getSchemeFrom rawURL 0 rawURL

/-- The function `stringContainsCTLByte`. -/
def stringContainsCTLByte (s : GoString) : Bool :=
  s.any (fun b => b < ch ' ' || b = 0x7f)

/-- The function `validOptionalPort`. -/
def validOptionalPort (port : GoString) : Bool :=
  match port with
  | [] => true
  | c :: digits => c = ch ':' && digits.all (fun b => !(b < ch '0' || b > ch '9'))

/-- The function `validUserinfo`. Byte 39 is the apostrophe. -/
def validUserinfo (s : GoString) : Bool :=
  s.all (fun r => isLetter r || isDigit r || r ∈ go "-._:~!$&()*+,;=%@" || r = 39)

/-- The function `validEncoded`. Byte 39 is the apostrophe. -/
def validEncoded (s : GoString) (mode : encoding) : Bool :=
  s.all (fun c =>
    if c ∈ go "!$&()*+,;=:@" || c = 39 then true
    else if c = ch '[' || c = ch ']' then true
    else if c = ch '%' then true
    else !shouldEscape c mode)

/-- The function `parseHost`. -/
def parseHost (host : GoString) : Option GoString :=
  if (go "[").isPrefixOf host then
    match LastIndex host (go "]") with
    | none => none
    | some i =>
      let colonPort := host.drop (i + 1)
      if !validOptionalPort colonPort then none
      else
        match Index (host.take i) (go "%25") with
        | some zone =>
          match unescape .encodeHost (host.take zone),
                unescape .encodeZone ((host.take i).drop zone),
                unescape .encodeHost (host.drop i) with
          | some host1, some host2, some host3 => some (host1 ++ host2 ++ host3)
          | _, _, _ => none
        | none => unescape .encodeHost host
  else
    match LastIndex host (go ":") with
    | some i =>
      if !validOptionalPort (host.drop i) then none else unescape .encodeHost host
    | none => unescape .encodeHost host

/-- The function `parseAuthority`. -/
def parseAuthority (authority : GoString) : Option (Option Userinfo × GoString) :=
  match LastIndex authority (go "@") with
  | none =>
    match parseHost authority with
    | none => none
    | some host => some (none, host)
  | some i =>
    match parseHost (authority.drop (i + 1)) with
    | none => none
    | some host =>
      let userinfo := authority.take i
      if !validUserinfo userinfo then none
      else if !Contains userinfo (go ":") then
        match unescape .encodeUserPassword userinfo with
        | none => none
        | some userinfo =>
          some (some { username := userinfo, password := [], passwordSet := false }, host)
      else
        let (username, password, _) := Cut userinfo (go ":")
        match unescape .encodeUserPassword username with
        | none => none
        | some username =>
          match unescape .encodeUserPassword password with
          | none => none
          | some password => some (some (UserPassword username password), host)

/-- The method `(*URL).setPath`. -/
def URL.setPath (u : URL) (p : GoString) : Option URL :=
  match unescape .encodePath p with
  | none => none
  | some path =>
    if p = escape path .encodePath then some { u with Path := path, RawPath := [] }
    else some { u with Path := path, RawPath := p }

/-- The method `(*URL).setFragment`. -/
def URL.setFragment (u : URL) (f : GoString) : Option URL :=
  match unescape .encodeFragment f with
  | none => none
  | some frag =>
    if f = escape frag .encodeFragment then some { u with Fragment := frag, RawFragment := [] }
    else some { u with Fragment := frag, RawFragment := f }

/-- The method `(*URL).EscapedPath`. -/
def URL.EscapedPath (u : URL) : GoString :=
  if u.RawPath ≠ [] && validEncoded u.RawPath .encodePath
      && unescape .encodePath u.RawPath = some u.Path then u.RawPath
  else if u.Path = go "*" then go "*"
  else escape u.Path .encodePath

/-- The method `(*URL).EscapedFragment`. -/
def URL.EscapedFragment (u : URL) : GoString :=
  if u.RawFragment ≠ [] && validEncoded u.RawFragment .encodeFragment
      && unescape .encodeFragment u.RawFragment = some u.Fragment then u.RawFragment
  else escape u.Fragment .encodeFragment

/-- The zero value `URL{}`. -/
def URL.empty : URL :=
  { Scheme := [], Opaque := [], User := none, Host := [], Path := [], RawPath := [],
    OmitHost := false, ForceQuery := false, RawQuery := [], Fragment := [], RawFragment := [] }

/-- The function `parse`. -/
def parse (rawURL : GoString) (viaRequest : Bool) : Option URL :=
  if stringContainsCTLByte rawURL then none
  else if rawURL = [] && viaRequest then none
  else if rawURL = go "*" then some { URL.empty with Path := go "*" }
  else
    match getScheme rawURL with
    | none => none
    | some (scheme, rest) =>
      let url := { URL.empty with Scheme := ToLower scheme }
      let (url, rest) :=
        if (go "?").isSuffixOf rest && rest.count (ch '?') = 1 then
          ({ url with ForceQuery := true }, rest.take (rest.length - 1))
        else
          ({ url with RawQuery := (Cut rest (go "?")).2.1 }, (Cut rest (go "?")).1)
      if !(go "/").isPrefixOf rest && url.Scheme ≠ [] then some { url with Opaque := rest }
      else if !(go "/").isPrefixOf rest && viaRequest then none
      else if !(go "/").isPrefixOf rest && Contains (Cut rest (go "/")).1 (go ":") then none
      else if (url.Scheme ≠ [] || (!viaRequest && !(go "///").isPrefixOf rest))
          && (go "//").isPrefixOf rest then
        let authority := rest.drop 2
        let (authority, rest) :=
          match Index authority (go "/") with
          | some i => (authority.take i, authority.drop i)
          | none => (authority, [])
        match parseAuthority authority with
        | none => none
        | some (user, host) => URL.setPath { url with User := user, Host := host } rest
      else if url.Scheme ≠ [] && (go "/").isPrefixOf rest then
        URL.setPath { url with OmitHost := true } rest
      else URL.setPath url rest

/-- The function `Parse`. -/
def Parse (rawURL : GoString) : Option URL :=
  let (u, frag, _) := Cut rawURL (go "#")
  match parse u false with
  | none => none
  | some url => if frag = [] then some url else url.setFragment frag

/-- The method `(*URL).String`. -/
def URL.String (u : URL) : GoString :=
  let buf : GoString := if u.Scheme ≠ [] then u.Scheme ++ go ":" else []
  let buf :=
    if u.Opaque ≠ [] then buf ++ u.Opaque
    else
      let buf :=
        if u.Scheme ≠ [] || u.Host ≠ [] || u.User.isSome then
          if u.OmitHost && u.Host = [] && u.User.isNone then buf
          else
            let buf :=
              if u.Host ≠ [] || u.Path ≠ [] || u.User.isSome then buf ++ go "//" else buf
            let buf :=
              match u.User with
              | some ui => buf ++ ui.String ++ go "@"
              | none => buf
            if u.Host ≠ [] then buf ++ escape u.Host .encodeHost else buf
        else buf
      let path := u.EscapedPath
      let buf :=
        if path ≠ [] && path.head? ≠ some (ch '/') && u.Host ≠ [] then buf ++ go "/" else buf
      let buf :=
        if buf = [] && Contains (Cut path (go "/")).1 (go ":") then buf ++ go "./" else buf
      buf ++ path
  let buf := if u.ForceQuery || u.RawQuery ≠ [] then buf ++ go "?" ++ u.RawQuery else buf
  if u.Fragment ≠ [] then buf ++ go "#" ++ u.EscapedFragment else buf

/-! ## What the program is given -/

/-- The process environment and the standard-library functions that
`models.go` calls. `urlParse` is `url.Parse` (`none` for a nil URL with an
error), `urlString` is `(*URL).String`, `FindStringSubmatch pattern s` is
`regexp.Compile(pattern)` followed by `FindStringSubmatch(s)` (`none` for
no match). -/
structure Runtime where
  Getenv : GoString → GoString
  urlParse : GoString → Option URL
  urlString : URL → GoString
  QueryEscape : GoString → GoString
  FindStringSubmatch : GoString → GoString → Option (List GoString)

/-- GetProjectPath extracts project path from URI: the third group of the
match, `none` when indexing the result panics. -/
def Source.GetProjectPath (rt : Runtime) (source : Source) : Option GoString :=
  match rt.FindStringSubmatch "(https?|ssh)://([^/]*)/(.*)\\.git$" source.URI with
  | none => none
  | some groups => groups[3]?

/-- The method `GetCoucourseUrl`. -/
def Source.GetCoucourseUrl (rt : Runtime) (source : Source) : GoString :=
  if source.ConcourseUrl ≠ "" then source.ConcourseUrl
  else rt.Getenv "ATC_EXTERNAL_URL"

/-- The method `GetTargetURL`; `none` when `url.Parse` fails, since the nil
URL is then dereferenced. -/
def Source.GetTargetURL (rt : Runtime) (source : Source) : Option GoString :=
  match rt.urlParse (source.GetCoucourseUrl rt) with
  | none => none
  | some target =>
    let target := { target with
      Path := target.Path ++ ("/teams/" ++ rt.QueryEscape (rt.Getenv "BUILD_TEAM_NAME")) }
    let target := { target with
      Path := target.Path ++ ("/pipelines/" ++ rt.QueryEscape (rt.Getenv "BUILD_PIPELINE_NAME")) }
    let target := { target with
      Path := target.Path ++ ("/jobs/" ++ rt.QueryEscape (rt.Getenv "BUILD_JOB_NAME")) }
    let target := { target with
      Path := target.Path ++ ("/builds/" ++ rt.QueryEscape (rt.Getenv "BUILD_NAME")) }
    some (rt.urlString target)

/-- The method `GetPipelineName`. -/
def Source.GetPipelineName (rt : Runtime) (source : Source) : GoString :=
  if source.PipelineName ≠ "" then source.PipelineName
  else rt.Getenv "BUILD_PIPELINE_NAME"

/-! ## The GitLab client -/

/-- The type `gitlab.BasicUser`, the author of a merge request. -/
structure BasicUser where
  ID : Int
  Username : GoString
  Name : GoString
deriving DecidableEq, Repr

/-- The type `gitlab.MergeRequest`, with the fields the program reads and a
few it does not. The author, a pointer in the client, is taken to be there,
as are the merge requests and the notes of a listing. -/
structure MergeRequest where
  ID : Int
  IID : Int
  ProjectID : Int
  SourceProjectID : Int
  TargetProjectID : Int
  Title : GoString
  Description : GoString
  State : GoString
  SourceBranch : GoString
  TargetBranch : GoString
  SHA : GoString
  WebURL : GoString
  MergeStatus : GoString
  WorkInProgress : Bool
  Author : BasicUser
  CreatedAt : Option Time
  UpdatedAt : Option Time
deriving DecidableEq, Repr

/-- The type `gitlab.Commit`. -/
structure Commit where
  ID : GoString
  Title : GoString
  Message : GoString
  AuthorName : GoString
  CommittedDate : Option Time
deriving DecidableEq, Repr

/-- The type `gitlab.Note`. -/
structure Note where
  ID : Int
  Body : GoString
  UpdatedAt : Option Time
deriving DecidableEq, Repr

/-- The type `gitlab.ListProjectMergeRequestsOptions`: every field is a
pointer, `none` is nil. -/
structure ListProjectMergeRequestsOptions where
  State : Option GoString
  OrderBy : Option GoString
  «Sort» : Option GoString
  Labels : Option (List GoString)
  TargetBranch : Option GoString
deriving DecidableEq, Repr

/-- The type `gitlab.BuildStateValue`. -/
inductive BuildStateValue
  | Pending | Created | Running | Success | Failed | Canceled | Skipped | Manual
deriving DecidableEq, Repr

/-- The type `gitlab.SetCommitStatusOptions`. -/
structure SetCommitStatusOptions where
  State : BuildStateValue
  Name : Option GoString
  TargetURL : Option GoString
deriving DecidableEq, Repr

/-- The type `gitlab.Project`, with the fields the program reads and a few
it does not. -/
structure Project where
  ID : Int
  PathWithNamespace : GoString
  SSHURLToRepo : GoString
  HTTPURLToRepo : GoString
  WebURL : GoString
deriving DecidableEq, Repr

/-- What one call of a client method returns besides the response: the
value pointer (`none` is nil) and whether the error is non-nil. -/
structure Answer (α : Type) where
  value : Option α
  failed : Bool
deriving DecidableEq, Repr

/-- The GitLab service as the program sees it: the answer of each client
method to each call. -/
structure Api where
  ListProjectMergeRequests : GoString → ListProjectMergeRequestsOptions → Except String (List MergeRequest)
  GetCommit : Int → GoString → Answer Commit
  ListMergeRequestNotes : Int → Int → List Note × Bool
  SetCommitStatus : Int → GoString → SetCommitStatusOptions → Bool
  GetProject : Int → Answer Project

/-! ## check/cmd/main.go -/

/-- Modelled from the spec: the type `check.Request`, whose declaration is
not among the sources; the request read from standard input has the shape
`{ source: Source, version: Version|null }`, and a null version decodes to
the zero `Version`. -/
structure Request where
  Source : Source
  Version : Version
deriving DecidableEq, Repr

/-- The function `latest`. -/
def latest (notes : List Note) (ts : List (Option Time)) : Time :=
  let ts := notes.foldl
    (fun ts note => if !Contains note.Body "[trigger ci]" then ts else ts ++ [note.UpdatedAt]) ts
  ts.foldl
    (fun latest tPtr =>
      match tPtr with
      | none => latest
      | some t => if latest.After t then latest else t)
    Time.zero

/-- One call of `SetCommitStatus`: project, commit and options. -/
structure StatusCall where
  pid : Int
  sha : GoString
  options : SetCommitStatusOptions
deriving DecidableEq, Repr

/-- Modelled from the spec: the function `common.Fatal`, whose package is not
among the sources, writes the failing step and the error to the diagnostic
stream and terminates the process with a non-zero exit (`fatal`). The other
early end of a process is a run-time panic. -/
inductive Failure
  | fatal (doing : String)
  | panic
deriving DecidableEq, Repr

/-- The end of a run of `check`: the versions written to standard output,
or the failure, and either way the statuses posted until then. -/
inductive Outcome
  | completed (versions : List Version) (posted : List StatusCall)
  | aborted (why : Failure) (posted : List StatusCall)
deriving DecidableEq, Repr

/-- What one pass of the loop body does. -/
inductive Step
  | skip
  | emit (version : Version) (post : StatusCall)
  | crash
deriving DecidableEq, Repr

/-- The options of the list query built in `main`. -/
def listOptions (source : Source) : ListProjectMergeRequestsOptions :=
  { State := some "opened"
    OrderBy := some "updated_at"
    «Sort» := some "asc"
    Labels := some source.Labels
    TargetBranch := some source.TargetBranch }

/-- The body of the loop over the listed merge requests in `main`. -/
def candidate (rt : Runtime) (api : Api) (request : Request) (mr : MergeRequest) : Step :=
  let fetched := api.GetCommit mr.ProjectID mr.SHA
  match fetched.value with
  | none => .crash
  | some commit =>
    let updatedAt := latest [] [commit.CommittedDate, mr.CreatedAt]
    if fetched.failed then .skip
    else if Contains commit.Title "[skip ci]" || Contains commit.Message "[skip ci]" then .skip
    else
      let updatedAt :=
        if !request.Source.SkipTriggerComment then
          latest (api.ListMergeRequestNotes mr.ProjectID mr.IID).1 [some updatedAt]
        else updatedAt
      if request.Source.SkipNotMergeable && mr.MergeStatus != "can_be_merged" then .skip
      else if request.Source.SkipWorkInProgress && mr.WorkInProgress then .skip
      else if
        (match request.Version.UpdatedAt with
         | some prior => !updatedAt.After prior
         | none => false) then .skip
      else
        match request.Source.GetTargetURL rt with
        | none => .crash
        | some target =>
          let name := request.Source.GetPipelineName rt
          let options : SetCommitStatusOptions :=
            { Name := some name, TargetURL := some target, State := .Pending }
          let _ := api.SetCommitStatus mr.SourceProjectID mr.SHA options
          .emit { ID := mr.IID, UpdatedAt := some updatedAt }
            { pid := mr.SourceProjectID, sha := mr.SHA, options := options }

/-- The loop of `main` from a given point: the merge requests still to
visit, the versions accumulated and the statuses posted so far. -/
def loop (rt : Runtime) (api : Api) (request : Request) :
    List MergeRequest → List Version → List StatusCall → Outcome
  | [], versions, posted => .completed versions posted
  | mr :: rest, versions, posted =>
    match candidate rt api request mr with
    | .crash => .aborted .panic posted
    | .skip => loop rt api request rest versions posted
    | .emit version post => loop rt api request rest (versions ++ [version]) (posted ++ [post])

/-- The function `main` of `check`, from the decoded request on. -/
def check (rt : Runtime) (api : Api) (request : Request) : Outcome :=
  let options := listOptions request.Source
  match request.Source.GetProjectPath rt with
  | none => .aborted .panic []
  | some pid =>
    match api.ListProjectMergeRequests pid options with
    | .error _ => .aborted (.fatal "retrieving opened merge requests") []
    | .ok requests => loop rt api request requests [] []

/-! ## in/cmd/main.go -/

deriving instance DecidableEq for Except

/-- The activity timestamp of a candidate whose head commit is `commit`, as
`main` computes it: `latest` over the commit and creation times, then, unless
`SkipTriggerComment` is set, `latest` over that and the notes. -/
def activity (api : Api) (source : Source) (mr : MergeRequest) (commit : Commit) : Time :=
  let updatedAt := latest [] [commit.CommittedDate, mr.CreatedAt]
  if !source.SkipTriggerComment then
    latest (api.ListMergeRequestNotes mr.ProjectID mr.IID).1 [some updatedAt]
  else updatedAt

/-- A commit carries the skip marker in its title or its message. -/
def skipMarked (commit : Commit) : Bool :=
  Contains commit.Title "[skip ci]" || Contains commit.Message "[skip ci]"

/-- Eligibility in the words of the specification: the commit fetch
succeeded, the commit has no skip marker, the merge request is not excluded
by `SkipNotMergeable` or `SkipWorkInProgress`, and the prior `UpdatedAt` is
null or strictly before the activity timestamp. -/
def eligible (api : Api) (request : Request) (mr : MergeRequest) : Bool :=
  match (api.GetCommit mr.ProjectID mr.SHA).value with
  | none => false
  | some commit =>
    !(api.GetCommit mr.ProjectID mr.SHA).failed
    && !skipMarked commit
    && !(request.Source.SkipNotMergeable && mr.MergeStatus != "can_be_merged")
    && !(request.Source.SkipWorkInProgress && mr.WorkInProgress)
    && (match request.Version.UpdatedAt with
        | none => true
        | some prior => decide (prior < activity api request.Source mr commit))

/-- The version the specification has `check` emit for a candidate:
`{ID: mr.IID, UpdatedAt: activity timestamp}`. -/
def versionOf (api : Api) (request : Request) (mr : MergeRequest) : Version :=
  { ID := mr.IID
    UpdatedAt := (api.GetCommit mr.ProjectID mr.SHA).value.map
      (activity api request.Source mr) }

/-- The status the specification has `check` post for an emitted candidate:
pending, named by `GetPipelineName`, pointing at `GetTargetURL`, against
the head commit in the source project. -/
def statusOf (rt : Runtime) (request : Request) (mr : MergeRequest) : StatusCall :=
  { pid := mr.SourceProjectID
    sha := mr.SHA
    options :=
      { State := .Pending
        Name := some (request.Source.GetPipelineName rt)
        TargetURL := request.Source.GetTargetURL rt } }

/-- The body of a note carries the trigger marker. -/
def triggerMarked (note : Note) : Bool := Contains note.Body "[trigger ci]"

/-- The times `latest notes ts` chooses among: the non-nil members of `ts`
and the non-nil `UpdatedAt` of the notes with the trigger marker. -/
def stamps (notes : List Note) (ts : List (Option Time)) : List Time :=
  ts.filterMap id ++ (notes.filter triggerMarked).filterMap (fun note => note.UpdatedAt)

/-- The times that count for a candidate: commit time, creation time and,
unless `SkipTriggerComment` is set, the times of its trigger comments. -/
def candidateStamps (api : Api) (source : Source) (mr : MergeRequest) (commit : Commit) :
    List Time :=
  stamps (if source.SkipTriggerComment then [] else (api.ListMergeRequestNotes mr.ProjectID mr.IID).1)
    [commit.CommittedDate, mr.CreatedAt]

/-- The time `a` is the maximum of the list `l`: a member no member exceeds. -/
def IsMaximumOf (a : Time) (l : List Time) : Prop := a ∈ l ∧ ∀ t ∈ l, t ≤ a

instance (a : Time) (l : List Time) : Decidable (IsMaximumOf a l) := by
  unfold IsMaximumOf; infer_instance

/-! ## Checkout URLs of the plain shape -/

/-- The source configuration of the sample. -/
def sampleSource : Source :=
  { URI := "https://gitlab.example.com/group/project.git"
    PrivateToken := "s3cret"
    PrivateKey := ""
    Insecure := false
    SkipWorkInProgress := false
    SkipNotMergeable := false
    SkipTriggerComment := false
    ConcourseUrl := "https://ci.example.com"
    PipelineName := "review"
    Labels := []
    TargetBranch := ""
    Submodules := "none"
    SubmoduleCreds := [] }

/-- The runtime of the sample: the build environment of one job, the
functions of `net/url`, and a regular-expression matcher that knows the one
repository URI of `sampleSource`. -/
def sampleRuntime : Runtime :=
  { Getenv := fun name =>
      if name = "BUILD_TEAM_NAME" then "main"
      else if name = "BUILD_PIPELINE_NAME" then "mr"
      else if name = "BUILD_JOB_NAME" then "test"
      else if name = "BUILD_NAME" then "7"
      else ""
    urlParse := Parse
    urlString := URL.String
    QueryEscape := QueryEscape
    FindStringSubmatch := fun _ s =>
      if s = "https://gitlab.example.com/group/project.git" then
        some [s, "https", "gitlab.example.com", "group/project"]
      else none }

/-- A merge request of the sample project with the given number, head
commit, work-in-progress flag and creation time. -/
def sampleMR (iid : Int) (sha : GoString) (wip : Bool) (created : Option Time) : MergeRequest :=
  { ID := 1000 + iid, IID := iid, ProjectID := 42, SourceProjectID := 43, TargetProjectID := 42
    Title := "change", Description := "", State := "opened"
    SourceBranch := "feature", TargetBranch := "master", SHA := sha
    WebURL := "https://gitlab.example.com/group/project/merge_requests/1"
    MergeStatus := "can_be_merged", WorkInProgress := wip
    Author := { ID := 5, Username := "ann", Name := "Ann" }
    CreatedAt := created, UpdatedAt := created }

/-- A commit with the given title and commit time. -/
def sampleCommit (sha title : GoString) (committed : Option Time) : Commit :=
  { ID := sha, Title := title, Message := title, AuthorName := "Ann", CommittedDate := committed }

/-- The service of the sample: merge request 1 (commit `a1`, times 100 and
90, one trigger comment at 150 and one plain comment at 300), merge request
2 (commit `b2` marked `[skip ci]`, times 200 and 190) and merge request 3
(commit `c3`, work in progress, times 120 and 110). The commit `e5` is dated
one nanosecond before the zero `Time`. The commit `d4` cannot be fetched:
the client returns a nil commit and an error. -/
def sampleApi : Api :=
  { ListProjectMergeRequests := fun pid _ =>
      if pid = "group/project" then
        .ok [sampleMR 1 "a1" false (some 90), sampleMR 2 "b2" false (some 190),
             sampleMR 3 "c3" true (some 110)]
      else .error "404 Project Not Found"
    GetCommit := fun _ sha =>
      if sha = "a1" then { value := some (sampleCommit "a1" "add feature" (some 100)), failed := false }
      else if sha = "b2" then
        { value := some (sampleCommit "b2" "typo [skip ci]" (some 200)), failed := false }
      else if sha = "c3" then { value := some (sampleCommit "c3" "draft" (some 120)), failed := false }
      else if sha = "e5" then { value := some (sampleCommit "e5" "relic" (some (-1))), failed := false }
      else { value := none, failed := true }
    ListMergeRequestNotes := fun _ iid =>
      if iid = 1 then
        ([{ ID := 1, Body := "please rebuild [trigger ci]", UpdatedAt := some 150 },
          { ID := 2, Body := "looks good", UpdatedAt := some 300 }], false)
      else ([], false)
    SetCommitStatus := fun _ _ _ => true
    GetProject := fun pid =>
      if pid = 42 then
        { value := some
            { ID := 42, PathWithNamespace := "group/project"
              SSHURLToRepo := "git@gitlab.example.com:group/project.git"
              HTTPURLToRepo := "https://gitlab.example.com/group/project.git"
              WebURL := "https://gitlab.example.com/group/project" }
          failed := false }
      else if pid = 43 then
        { value := some
            { ID := 43, PathWithNamespace := "ann/project"
              SSHURLToRepo := "git@gitlab.example.com:ann/project.git"
              HTTPURLToRepo := "https://gitlab.example.com:8443/ann/project.git"
              WebURL := "https://gitlab.example.com/ann/project" }
          failed := false }
      else if pid = 44 then
        { value := some
            { ID := 44, PathWithNamespace := "odd"
              SSHURLToRepo := "git@gitlab.example.com:odd.git"
              HTTPURLToRepo := "http:odd.git"
              WebURL := "https://gitlab.example.com/odd" }
          failed := false }
      else { value := none, failed := true } }

/-- The sample service with the listing replaced. -/
def sampleApiListing (requests : List MergeRequest) : Api :=
  { sampleApi with ListProjectMergeRequests := fun _ _ => .ok requests }

/-- The request of the sample with the given prior timestamp. -/
def sampleRequest (prior : Option Time) : Request :=
  { Source := sampleSource, Version := { ID := 1, UpdatedAt := prior } }

/-- The status posted for a merge request of the sample with head `sha`. -/
def sampleStatus (sha : GoString) : StatusCall :=
  { pid := 43, sha := sha
    options :=
      { State := .Pending, Name := some "review"
        TargetURL := some "https://ci.example.com/teams/main/pipelines/mr/jobs/test/builds/7" } }

/-! ## The loop body, case by case -/

theorem candidate_eq (rt : Runtime) (api : Api) (request : Request) (mr : MergeRequest) :
    candidate rt api request mr =
      match (api.GetCommit mr.ProjectID mr.SHA).value with
      | none => .crash
      | some _ =>
        if eligible api request mr then
          match request.Source.GetTargetURL rt with
          | none => .crash
          | some _ => .emit (versionOf api request mr) (statusOf rt request mr)
        else .skip := by
  cases h : (api.GetCommit mr.ProjectID mr.SHA).value with
  | none => simp [candidate, h]
  | some commit =>
    have ha : (if !request.Source.SkipTriggerComment then
          latest (api.ListMergeRequestNotes mr.ProjectID mr.IID).1
            [some (latest [] [commit.CommittedDate, mr.CreatedAt])]
        else latest [] [commit.CommittedDate, mr.CreatedAt])
        = activity api request.Source mr commit := rfl
    simp only [candidate, h, eligible, versionOf, statusOf, skipMarked, Option.map_some', ha]
    generalize activity api request.Source mr commit = a
    cases (api.GetCommit mr.ProjectID mr.SHA).failed <;>
    cases (Contains commit.Title "[skip ci]") <;>
    cases (Contains commit.Message "[skip ci]") <;>
    cases (request.Source.SkipNotMergeable && mr.MergeStatus != "can_be_merged") <;>
    cases (request.Source.SkipWorkInProgress && mr.WorkInProgress) <;>
    cases request.Version.UpdatedAt <;>
    cases request.Source.GetTargetURL rt <;>
    simp [Time.After] <;>
    split <;> simp_all <;>
    rw [if_neg (not_lt.mpr (by assumption))]

theorem candidate_emit (rt : Runtime) (api : Api) (request : Request) (mr : MergeRequest)
    (version : Version) (post : StatusCall)
    (h : candidate rt api request mr = .emit version post) :
    eligible api request mr = true ∧ version = versionOf api request mr
      ∧ post = statusOf rt request mr
      ∧ (∃ target, request.Source.GetTargetURL rt = some target)
      ∧ ∃ commit, (api.GetCommit mr.ProjectID mr.SHA).value = some commit := by
  rw [candidate_eq] at h
  cases hv : (api.GetCommit mr.ProjectID mr.SHA).value with
  | none => simp [hv] at h
  | some commit =>
    cases he : eligible api request mr with
    | false => simp [hv, he] at h
    | true =>
      cases hu : request.Source.GetTargetURL rt with
      | none => simp [hv, he, hu] at h
      | some target =>
        simp only [hv, he, hu, if_true, Step.emit.injEq] at h
        exact ⟨rfl, h.1.symm, h.2.symm, ⟨target, rfl⟩, ⟨commit, rfl⟩⟩

theorem candidate_skip (rt : Runtime) (api : Api) (request : Request) (mr : MergeRequest)
    (h : candidate rt api request mr = .skip) :
    eligible api request mr = false
      ∧ ∃ commit, (api.GetCommit mr.ProjectID mr.SHA).value = some commit := by
  rw [candidate_eq] at h
  cases hv : (api.GetCommit mr.ProjectID mr.SHA).value with
  | none => simp [hv] at h
  | some commit =>
    cases he : eligible api request mr with
    | false => exact ⟨rfl, commit, rfl⟩
    | true =>
      cases hu : request.Source.GetTargetURL rt <;> simp [hv, he, hu] at h

theorem candidate_crash (rt : Runtime) (api : Api) (request : Request) (mr : MergeRequest) :
    candidate rt api request mr = .crash ↔
      (api.GetCommit mr.ProjectID mr.SHA).value = none
        ∨ (eligible api request mr = true ∧ request.Source.GetTargetURL rt = none) := by
  rw [candidate_eq]
  cases hv : (api.GetCommit mr.ProjectID mr.SHA).value with
  | none => simp
  | some commit =>
    cases he : eligible api request mr <;>
      cases hu : request.Source.GetTargetURL rt <;> simp

/-! ## The loop as a filter -/

theorem loop_of_no_crash (rt : Runtime) (api : Api) (request : Request) :
    ∀ (requests : List MergeRequest) (versions : List Version) (posted : List StatusCall),
      (∀ mr ∈ requests, candidate rt api request mr ≠ .crash) →
      loop rt api request requests versions posted =
        .completed
          (versions ++ (requests.filter (eligible api request)).map (versionOf api request))
          (posted ++ (requests.filter (eligible api request)).map (statusOf rt request)) := by
  intro requests
  induction requests with
  | nil => intro versions posted _; simp [loop]
  | cons mr rest ih =>
    intro versions posted h
    have hrest : ∀ m ∈ rest, candidate rt api request m ≠ .crash :=
      fun m hm => h m (List.mem_cons_of_mem _ hm)
    have hmr := h mr (List.mem_cons_self _ _)
    cases hc : candidate rt api request mr with
    | crash => exact absurd hc hmr
    | skip =>
      have he := (candidate_skip rt api request mr hc).1
      simp [loop, hc, ih versions posted hrest, he]
    | emit version post =>
      obtain ⟨he, hv, hp, _, _⟩ := candidate_emit rt api request mr version post hc
      simp [loop, hc, ih _ _ hrest, he, hv, hp]

theorem loop_of_crash (rt : Runtime) (api : Api) (request : Request) :
    ∀ (requests : List MergeRequest) (versions : List Version) (posted : List StatusCall),
      (∃ mr ∈ requests, candidate rt api request mr = .crash) →
      ∃ posted', loop rt api request requests versions posted = .aborted .panic posted' := by
  intro requests
  induction requests with
  | nil => intro versions posted h; simp at h
  | cons mr rest ih =>
    intro versions posted h
    cases hc : candidate rt api request mr with
    | crash => exact ⟨posted, by simp [loop, hc]⟩
    | skip =>
      obtain ⟨m, hm, hcm⟩ := h
      rcases List.mem_cons.mp hm with rfl | hm
      · rw [hc] at hcm; cases hcm
      · simpa [loop, hc] using ih versions posted ⟨m, hm, hcm⟩
    | emit version post =>
      obtain ⟨m, hm, hcm⟩ := h
      rcases List.mem_cons.mp hm with rfl | hm
      · rw [hc] at hcm; cases hcm
      · simpa [loop, hc] using ih _ _ ⟨m, hm, hcm⟩

theorem loop_completed (rt : Runtime) (api : Api) (request : Request)
    (requests : List MergeRequest) (versions : List Version) (posted : List StatusCall)
    (h : loop rt api request requests [] [] = .completed versions posted) :
    (∀ mr ∈ requests, candidate rt api request mr ≠ .crash)
      ∧ versions = (requests.filter (eligible api request)).map (versionOf api request)
      ∧ posted = (requests.filter (eligible api request)).map (statusOf rt request) := by
  by_cases hc : ∃ mr ∈ requests, candidate rt api request mr = .crash
  · obtain ⟨posted', hp⟩ := loop_of_crash rt api request requests [] [] hc
    rw [hp] at h; cases h
  · have hn : ∀ mr ∈ requests, candidate rt api request mr ≠ .crash :=
      fun mr hm hcr => hc ⟨mr, hm, hcr⟩
    rw [loop_of_no_crash rt api request requests [] [] hn] at h
    simp only [List.nil_append, Outcome.completed.injEq] at h
    exact ⟨hn, h.1.symm, h.2.symm⟩

theorem check_completed (rt : Runtime) (api : Api) (request : Request)
    (versions : List Version) (posted : List StatusCall)
    (h : check rt api request = .completed versions posted) :
    ∃ pid requests, request.Source.GetProjectPath rt = some pid
      ∧ api.ListProjectMergeRequests pid (listOptions request.Source) = .ok requests
      ∧ loop rt api request requests [] [] = .completed versions posted := by
  unfold check at h
  cases hp : request.Source.GetProjectPath rt with
  | none => simp [hp] at h
  | some pid =>
    cases hl : api.ListProjectMergeRequests pid (listOptions request.Source) with
    | error e => simp [hp, hl] at h
    | ok requests =>
      simp only [hp, hl] at h
      exact ⟨pid, requests, rfl, hl, h⟩

/-! ## The function `latest` -/

theorem collect_notes (notes : List Note) :
    ∀ ts : List (Option Time),
      notes.foldl
        (fun ts note => if !Contains note.Body "[trigger ci]" then ts else ts ++ [note.UpdatedAt]) ts
      = ts ++ (notes.filter triggerMarked).map (fun note => note.UpdatedAt) := by
  induction notes with
  | nil => intro ts; simp
  | cons note rest ih =>
    intro ts
    rw [List.foldl_cons]
    cases hb : Contains note.Body "[trigger ci]"
    · simp only [Bool.not_false, if_true]
      rw [ih]
      simp [List.filter_cons, triggerMarked, hb]
    · simp only [Bool.not_true, Bool.false_eq_true, if_false]
      rw [ih]
      simp [List.filter_cons, triggerMarked, hb]

theorem scan_latest (l : List (Option Time)) :
    ∀ start : Time,
      IsMaximumOf
        (l.foldl
          (fun latest tPtr =>
            match tPtr with
            | none => latest
            | some t => if latest.After t then latest else t) start)
        (start :: l.filterMap id) := by
  induction l with
  | nil => intro start; simp [IsMaximumOf]
  | cons tPtr rest ih =>
    intro start
    cases tPtr with
    | none => simpa using ih start
    | some t =>
      by_cases hlt : t < start
      · have := ih start
        simp only [List.foldl_cons, Time.After, hlt, decide_True, if_true]
        refine ⟨?_, ?_⟩
        · have hm := this.1
          simp only [List.mem_cons] at hm ⊢
          simp only [List.filterMap_cons_some (show id (some t) = some t from rfl), List.mem_cons]
          tauto
        · intro u hu
          simp only [List.filterMap_cons_some (show id (some t) = some t from rfl),
            List.mem_cons] at hu
          rcases hu with rfl | rfl | hu
          · exact this.2 _ (List.mem_cons_self _ _)
          · exact le_trans (le_of_lt hlt) (this.2 _ (List.mem_cons_self _ _))
          · exact this.2 _ (List.mem_cons_of_mem _ hu)
      · have := ih t
        simp only [List.foldl_cons, Time.After, hlt, decide_False, if_false, Bool.false_eq_true]
        refine ⟨?_, ?_⟩
        · have hm := this.1
          simp only [List.mem_cons] at hm ⊢
          simp only [List.filterMap_cons_some (show id (some t) = some t from rfl), List.mem_cons]
          tauto
        · intro u hu
          simp only [List.filterMap_cons_some (show id (some t) = some t from rfl),
            List.mem_cons] at hu
          rcases hu with rfl | rfl | hu
          · exact le_trans (not_lt.mp hlt) (this.2 _ (List.mem_cons_self _ _))
          · exact this.2 _ (List.mem_cons_self _ _)
          · exact this.2 _ (List.mem_cons_of_mem _ hu)

theorem latest_isMaximum (notes : List Note) (ts : List (Option Time)) :
    IsMaximumOf (latest notes ts) (Time.zero :: stamps notes ts) := by
  have h := scan_latest (ts ++ (notes.filter triggerMarked).map (fun note => note.UpdatedAt))
    Time.zero
  simp only [latest, collect_notes, stamps]
  simpa [List.filterMap_append, List.filterMap_map, Function.comp_def] using h

theorem isMaximumOf_unique (a b : Time) (l : List Time)
    (ha : IsMaximumOf a l) (hb : IsMaximumOf b l) : a = b :=
  le_antisymm (hb.2 a ha.1) (ha.2 b hb.1)

theorem activity_isMaximum (api : Api) (source : Source) (mr : MergeRequest) (commit : Commit) :
    IsMaximumOf (activity api source mr commit)
      (Time.zero :: candidateStamps api source mr commit) := by
  have h1 := latest_isMaximum [] [commit.CommittedDate, mr.CreatedAt]
  cases hs : source.SkipTriggerComment with
  | true => simpa [activity, candidateStamps, hs] using h1
  | false =>
    have h2 := latest_isMaximum (api.ListMergeRequestNotes mr.ProjectID mr.IID).1
      [some (latest [] [commit.CommittedDate, mr.CreatedAt])]
    simp only [activity, candidateStamps, hs, Bool.not_false, if_true, Bool.false_eq_true,
      if_false]
    generalize latest (api.ListMergeRequestNotes mr.ProjectID mr.IID).1
      [some (latest [] [commit.CommittedDate, mr.CreatedAt])] = a at h2
    generalize latest [] [commit.CommittedDate, mr.CreatedAt] = u at h1 h2
    simp only [stamps, IsMaximumOf, List.mem_cons, List.mem_append, List.filter_nil,
      List.filterMap_nil, List.append_nil, List.filterMap_cons_some
        (show id (some u) = some u from rfl)] at h1 h2 ⊢
    obtain ⟨h1m, h1b⟩ := h1
    obtain ⟨h2m, h2b⟩ := h2
    refine ⟨?_, ?_⟩
    · rcases h2m with h | h
      · exact Or.inl h
      · rcases h with h | h
        · rcases h with h | h
          · rw [h]
            rcases h1m with h' | h'
            · exact Or.inl h'
            · exact Or.inr (Or.inl h')
          · simp at h
        · exact Or.inr (Or.inr h)
    · intro t ht
      rcases ht with h | h
      · exact h2b t (Or.inl h)
      · rcases h with h | h
        · exact le_trans (h1b t (Or.inr h)) (h2b u (Or.inr (Or.inl (Or.inl rfl))))
        · exact h2b t (Or.inr (Or.inr h))

/-! ## Removing a skipped candidate -/

theorem loop_without_skipped (rt : Runtime) (api : Api) (request : Request) (mr : MergeRequest)
    (hs : candidate rt api request mr = .skip) :
    ∀ (requests : List MergeRequest) (versions : List Version) (posted : List StatusCall),
      loop rt api request (requests.filter (fun other => decide (other ≠ mr))) versions posted
        = loop rt api request requests versions posted := by
  intro requests
  induction requests with
  | nil => intro versions posted; rfl
  | cons m rest ih =>
    intro versions posted
    by_cases hm : m = mr
    · subst hm
      rw [List.filter_cons_of_neg (by simp), ih]
      simp only [loop, hs]
    · rw [List.filter_cons_of_pos (by simpa using hm)]
      cases hc : candidate rt api request m with
      | crash => simp only [loop, hc]
      | skip => simp only [loop, hc]; exact ih _ _
      | emit version post => simp only [loop, hc]; exact ih _ _

/-! ## Eligibility spelled out -/

theorem eligible_iff (api : Api) (request : Request) (mr : MergeRequest) :
    eligible api request mr = true ↔
      ∃ commit, (api.GetCommit mr.ProjectID mr.SHA).value = some commit
        ∧ (api.GetCommit mr.ProjectID mr.SHA).failed = false
        ∧ Contains commit.Title "[skip ci]" = false
        ∧ Contains commit.Message "[skip ci]" = false
        ∧ ¬ (request.Source.SkipNotMergeable = true ∧ mr.MergeStatus ≠ "can_be_merged")
        ∧ ¬ (request.Source.SkipWorkInProgress = true ∧ mr.WorkInProgress = true)
        ∧ (request.Version.UpdatedAt = none
            ∨ ∃ prior, request.Version.UpdatedAt = some prior
                ∧ prior < activity api request.Source mr commit) := by
  cases hv : (api.GetCommit mr.ProjectID mr.SHA).value with
  | none => simp [eligible, hv]
  | some commit =>
    simp only [eligible, hv, skipMarked, Option.some.injEq, exists_eq_left']
    cases hp : request.Version.UpdatedAt <;>
      cases request.Source.SkipNotMergeable <;>
      cases request.Source.SkipWorkInProgress <;>
      cases mr.WorkInProgress <;>
      simp [and_assoc]

theorem eligible_after_cursor (api : Api) (request : Request) (mr : MergeRequest) (prior : Time)
    (he : eligible api request mr = true) (hp : request.Version.UpdatedAt = some prior) :
    ∃ commit, (api.GetCommit mr.ProjectID mr.SHA).value = some commit
      ∧ prior < activity api request.Source mr commit := by
  obtain ⟨commit, hv, _, _, _, _, _, hc⟩ := (eligible_iff api request mr).mp he
  refine ⟨commit, hv, ?_⟩
  rcases hc with hn | ⟨t, ht, hlt⟩
  · rw [hp] at hn; cases hn
  · rw [hp] at ht; cases ht; exact hlt

theorem check_eq_loop (rt : Runtime) (api : Api) (request : Request) (pid : GoString)
    (requests : List MergeRequest)
    (hp : request.Source.GetProjectPath rt = some pid)
    (hl : api.ListProjectMergeRequests pid (listOptions request.Source) = .ok requests) :
    check rt api request = loop rt api request requests [] [] := by
  simp [check, hp, hl]

theorem check_output (rt : Runtime) (api : Api) (request : Request)
    (versions : List Version) (posted : List StatusCall)
    (h : check rt api request = .completed versions posted) :
    ∃ pid requests, request.Source.GetProjectPath rt = some pid
      ∧ api.ListProjectMergeRequests pid (listOptions request.Source) = .ok requests
      ∧ (∀ mr ∈ requests, candidate rt api request mr ≠ .crash)
      ∧ versions = (requests.filter (eligible api request)).map (versionOf api request)
      ∧ posted = (requests.filter (eligible api request)).map (statusOf rt request) := by
  obtain ⟨pid, requests, hp, hl, hloop⟩ := check_completed rt api request versions posted h
  obtain ⟨hn, hv, hs⟩ := loop_completed rt api request requests versions posted hloop
  exact ⟨pid, requests, hp, hl, hn, hv, hs⟩

/-! ## What the run depends on -/

theorem candidate_congr (rt : Runtime) (api api' : Api) (request : Request) (mr : MergeRequest)
    (hc : api'.GetCommit = api.GetCommit)
    (hn : api'.ListMergeRequestNotes = api.ListMergeRequestNotes) :
    candidate rt api' request mr = candidate rt api request mr := by
  simp only [candidate, hc, hn]

theorem loop_congr (rt : Runtime) (api api' : Api) (request : Request)
    (hc : api'.GetCommit = api.GetCommit)
    (hn : api'.ListMergeRequestNotes = api.ListMergeRequestNotes) :
    ∀ (requests : List MergeRequest) (versions : List Version) (posted : List StatusCall),
      loop rt api' request requests versions posted
        = loop rt api request requests versions posted := by
  intro requests
  induction requests with
  | nil => intro versions posted; rfl
  | cons mr rest ih =>
    intro versions posted
    simp only [loop, candidate_congr rt api api' request mr hc hn]
    cases candidate rt api request mr <;> simp [ih]

theorem check_congr (rt : Runtime) (api api' : Api) (request : Request)
    (hc : api'.GetCommit = api.GetCommit)
    (hn : api'.ListMergeRequestNotes = api.ListMergeRequestNotes)
    (hl : ∀ pid, api'.ListProjectMergeRequests pid (listOptions request.Source)
      = api.ListProjectMergeRequests pid (listOptions request.Source)) :
    check rt api' request = check rt api request := by
  unfold check
  cases request.Source.GetProjectPath rt with
  | none => rfl
  | some pid =>
    simp only [hl pid]
    cases api.ListProjectMergeRequests pid (listOptions request.Source) with
    | error e => rfl
    | ok requests => exact loop_congr rt api api' request hc hn requests [] []

/-! ## Claims about `check` -/

/-- C1, as the code behaves: when the commit fetch of a listed candidate
fails the way the client fails (a nil commit beside the error), `check` does
not skip the candidate: `commit.CommittedDate` is read before the error is
tested, the run ends in a panic and no version list is written. -/
theorem failed_fetch_aborts_check (rt : Runtime) (api : Api) (request : Request)
    (pid : GoString) (requests : List MergeRequest) (mr : MergeRequest)
    (hp : request.Source.GetProjectPath rt = some pid)
    (hl : api.ListProjectMergeRequests pid (listOptions request.Source) = .ok requests)
    (hm : mr ∈ requests)
    (hf : (api.GetCommit mr.ProjectID mr.SHA).value = none) :
    ∃ posted, check rt api request = .aborted .panic posted := by
  rw [check_eq_loop rt api request pid requests hp hl]
  exact loop_of_crash rt api request requests [] []
    ⟨mr, hm, (candidate_crash rt api request mr).mpr (Or.inl hf)⟩

/-- Witness for C1: in the sample, merge request 1 followed by a merge
request whose commit `d4` cannot be fetched ends in a panic after the status
of merge request 1 was posted, while merge request 1 alone is emitted. -/
theorem failed_fetch_aborts_check_witness :
    (∃ posted,
        check sampleRuntime
          (sampleApiListing [sampleMR 1 "a1" false (some 90), sampleMR 4 "d4" false (some 95)])
          (sampleRequest none) = .aborted .panic posted)
      ∧ check sampleRuntime
          (sampleApiListing [sampleMR 1 "a1" false (some 90), sampleMR 4 "d4" false (some 95)])
          (sampleRequest none) = .aborted .panic [sampleStatus "a1"]
      ∧ check sampleRuntime (sampleApiListing [sampleMR 1 "a1" false (some 90)])
          (sampleRequest none) = .completed [⟨1, some 150⟩] [sampleStatus "a1"] :=
  ⟨failed_fetch_aborts_check sampleRuntime _ (sampleRequest none) "group/project"
      [sampleMR 1 "a1" false (some 90), sampleMR 4 "d4" false (some 95)]
      (sampleMR 4 "d4" false (some 95)) (by decide) rfl (by simp) (by decide),
    by decide, by decide⟩

/-- C2: a listed merge request whose head commit carries `[skip ci]` in its
title or message is skipped by the loop body, whatever the prior version,
the three switches and the timestamps are, and the run of `check` is the run
over the listing without that merge request: nothing in the output comes
from it. -/
theorem skip_marked_never_emitted (rt : Runtime) (api : Api) (request : Request)
    (mr : MergeRequest) (commit : Commit)
    (hc : (api.GetCommit mr.ProjectID mr.SHA).value = some commit)
    (hs : Contains commit.Title "[skip ci]" = true ∨ Contains commit.Message "[skip ci]" = true) :
    candidate rt api request mr = .skip
      ∧ (∀ pid requests, request.Source.GetProjectPath rt = some pid →
          api.ListProjectMergeRequests pid (listOptions request.Source) = .ok requests →
          check rt api request
            = loop rt api request (requests.filter (fun other => decide (other ≠ mr))) [] [])
      ∧ (∀ versions posted, check rt api request = .completed versions posted →
          ∃ pid requests, request.Source.GetProjectPath rt = some pid
            ∧ api.ListProjectMergeRequests pid (listOptions request.Source) = .ok requests
            ∧ versions = ((requests.filter (fun other => decide (other ≠ mr))).filter
                (eligible api request)).map (versionOf api request)) := by
  have hne : eligible api request mr = false := by
    cases he : eligible api request mr with
    | false => rfl
    | true =>
      obtain ⟨c, hv, _, h1, h2, _⟩ := (eligible_iff api request mr).mp he
      rw [hc] at hv; cases hv
      rcases hs with h | h
      · rw [h1] at h; cases h
      · rw [h2] at h; cases h
  have hskip : candidate rt api request mr = .skip := by
    rw [candidate_eq, hc]; simp [hne]
  refine ⟨hskip, ?_, ?_⟩
  · intro pid requests hp hl
    rw [check_eq_loop rt api request pid requests hp hl,
      loop_without_skipped rt api request mr hskip]
  · intro versions posted h
    obtain ⟨pid, requests, hp, hl, h'⟩ := check_completed rt api request versions posted h
    rw [← loop_without_skipped rt api request mr hskip] at h'
    exact ⟨pid, requests, hp, hl, (loop_completed rt api request _ versions posted h').2.1⟩

/-- Witness for C2: merge request 2 of the sample, whose commit title is
`typo [skip ci]`. -/
theorem skip_marked_never_emitted_witness :
    candidate sampleRuntime sampleApi (sampleRequest none) (sampleMR 2 "b2" false (some 190))
        = .skip
      ∧ check sampleRuntime sampleApi (sampleRequest none)
        = .completed [⟨1, some 150⟩, ⟨3, some 120⟩] [sampleStatus "a1", sampleStatus "c3"] :=
  ⟨(skip_marked_never_emitted sampleRuntime sampleApi (sampleRequest none)
      (sampleMR 2 "b2" false (some 190)) (sampleCommit "b2" "typo [skip ci]" (some 200))
      (by decide) (Or.inl (by decide))).1, by decide⟩

/-- C3: when the prior version has `UpdatedAt = T`, every version in the
output of `check` has an `UpdatedAt` strictly after `T`, and a candidate
whose activity timestamp is `T` or earlier is skipped. -/
theorem emitted_strictly_after_cursor (rt : Runtime) (api : Api) (request : Request) (T : Time)
    (hT : request.Version.UpdatedAt = some T) :
    (∀ versions posted, check rt api request = .completed versions posted →
        ∀ v ∈ versions, ∃ u, v.UpdatedAt = some u ∧ T < u)
      ∧ (∀ mr commit, (api.GetCommit mr.ProjectID mr.SHA).value = some commit →
          activity api request.Source mr commit ≤ T →
          candidate rt api request mr = .skip) := by
  refine ⟨?_, ?_⟩
  · intro versions posted h v hv
    obtain ⟨pid, requests, _, _, _, hvs, _⟩ := check_output rt api request versions posted h
    rw [hvs] at hv
    obtain ⟨mr, hmr, rfl⟩ := List.mem_map.mp hv
    have he := (List.mem_filter.mp hmr).2
    obtain ⟨commit, hc, hlt⟩ := eligible_after_cursor api request mr T he hT
    exact ⟨activity api request.Source mr commit, by simp [versionOf, hc], hlt⟩
  · intro mr commit hc hle
    have hne : eligible api request mr = false := by
      cases he : eligible api request mr with
      | false => rfl
      | true =>
        obtain ⟨c, hv, hlt⟩ := eligible_after_cursor api request mr T he hT
        rw [hc] at hv; cases hv
        exact absurd hlt (not_lt.mpr hle)
    rw [candidate_eq, hc]; simp [hne]

/-- Witness for C3: the sample with cursor 120. Merge request 1 (activity
150) is emitted, merge request 3 (activity 120, a tie) is not. -/
theorem emitted_strictly_after_cursor_witness :
    (∀ versions posted,
        check sampleRuntime sampleApi (sampleRequest (some 120)) = .completed versions posted →
        ∀ v ∈ versions, ∃ u, v.UpdatedAt = some u ∧ (120 : Time) < u)
      ∧ check sampleRuntime sampleApi (sampleRequest (some 120))
        = .completed [⟨1, some 150⟩] [sampleStatus "a1"]
      ∧ candidate sampleRuntime sampleApi (sampleRequest (some 120))
          (sampleMR 3 "c3" true (some 110)) = .skip :=
  ⟨(emitted_strictly_after_cursor sampleRuntime sampleApi (sampleRequest (some 120)) 120 rfl).1,
    by decide,
    (emitted_strictly_after_cursor sampleRuntime sampleApi (sampleRequest (some 120)) 120 rfl).2
      (sampleMR 3 "c3" true (some 110)) (sampleCommit "c3" "draft" (some 120))
      (by decide) (by decide)⟩

/-- C10: `check` never reads the prior version's ID. Two requests with the
same source and the same prior `UpdatedAt` give the same run, versions and
posted statuses alike, and the loop body treats every merge request the same
under both. So the cursor applies to every merge request, whatever its
number: one whose activity timestamp is not strictly after the cursor is
skipped. -/
theorem check_ignores_prior_id (rt : Runtime) (api : Api) (r₁ r₂ : Request)
    (hs : r₁.Source = r₂.Source) (hu : r₁.Version.UpdatedAt = r₂.Version.UpdatedAt) :
    check rt api r₁ = check rt api r₂
      ∧ (∀ mr, candidate rt api r₁ mr = candidate rt api r₂ mr)
      ∧ (∀ T mr commit, r₁.Version.UpdatedAt = some T →
          (api.GetCommit mr.ProjectID mr.SHA).value = some commit →
          activity api r₁.Source mr commit ≤ T →
          candidate rt api r₁ mr = .skip ∧ candidate rt api r₂ mr = .skip) := by
  have hcand : ∀ mr, candidate rt api r₁ mr = candidate rt api r₂ mr := by
    intro mr
    simp only [candidate, hs, hu]
  have hloop : ∀ (requests : List MergeRequest) (versions : List Version)
      (posted : List StatusCall),
      loop rt api r₁ requests versions posted = loop rt api r₂ requests versions posted := by
    intro requests
    induction requests with
    | nil => intro versions posted; rfl
    | cons mr rest ih =>
      intro versions posted
      simp only [loop, hcand mr]
      cases candidate rt api r₂ mr <;> simp [ih]
  refine ⟨?_, hcand, ?_⟩
  · simp only [check, hs, hloop]
  · intro T mr commit hT hc hle
    have h1 : candidate rt api r₁ mr = .skip := by
      have hne : eligible api r₁ mr = false := by
        cases he : eligible api r₁ mr with
        | false => rfl
        | true =>
          obtain ⟨c, hv, hlt⟩ := eligible_after_cursor api r₁ mr T he hT
          rw [hc] at hv; cases hv
          exact absurd hlt (not_lt.mpr hle)
      rw [candidate_eq, hc]; simp [hne]
    exact ⟨h1, by rw [← hcand mr]; exact h1⟩

/-- Witness for C10: the sample with cursor 120 taken from merge request 1
and the same request with the cursor said to come from merge request 77. -/
theorem check_ignores_prior_id_witness :
    check sampleRuntime sampleApi (sampleRequest (some 120))
      = check sampleRuntime sampleApi
          { Source := sampleSource, Version := { ID := 77, UpdatedAt := some 120 } }
      ∧ candidate sampleRuntime sampleApi (sampleRequest (some 120))
          (sampleMR 3 "c3" true (some 110)) = .skip :=
  ⟨(check_ignores_prior_id sampleRuntime sampleApi (sampleRequest (some 120))
      { Source := sampleSource, Version := { ID := 77, UpdatedAt := some 120 } } rfl rfl).1,
   ((check_ignores_prior_id sampleRuntime sampleApi (sampleRequest (some 120))
      { Source := sampleSource, Version := { ID := 77, UpdatedAt := some 120 } } rfl rfl).2.2
      120 (sampleMR 3 "c3" true (some 110)) (sampleCommit "c3" "draft" (some 120))
      rfl (by decide) (by decide)).1⟩

/-- C7, as the code behaves: the list query of `check` asks for state
`opened` and the labels of `source.Labels`, and it always carries a target
branch, the one of `source.TargetBranch`, also when that is empty; the run
depends on the listing only through the answer to this query. -/
theorem list_query_options (source : Source) :
    (listOptions source).State = some "opened"
      ∧ (listOptions source).Labels = some source.Labels
      ∧ (listOptions source).TargetBranch = some source.TargetBranch
      ∧ (listOptions source).TargetBranch ≠ none
      ∧ ∀ (rt : Runtime) (api : Api) (version : Version),
          check rt api { Source := source, Version := version }
            = check rt
                { api with
                  ListProjectMergeRequests := fun pid _ =>
                    api.ListProjectMergeRequests pid (listOptions source) }
                { Source := source, Version := version } := by
  refine ⟨rfl, rfl, rfl, by simp [listOptions], ?_⟩
  intro rt api version
  exact (check_congr rt api
    { api with
      ListProjectMergeRequests := fun pid _ =>
        api.ListProjectMergeRequests pid (listOptions source) }
    { Source := source, Version := version } rfl rfl (fun _ => rfl)).symm

/-- Counterexample to C7 as stated: the sample source has an empty
`TargetBranch`, and the query options still carry a target branch, the
empty one. -/
theorem empty_target_branch_is_sent :
    sampleSource.TargetBranch = ""
      ∧ (listOptions sampleSource).TargetBranch = some ""
      ∧ (listOptions sampleSource).TargetBranch ≠ none := by
  decide

/-- C4, as the code behaves: for a candidate whose head commit was fetched,
the timestamp `check` tests against the cursor and emits as `UpdatedAt` is
the latest of Go's zero `Time` and the non-nil times among the commit's
`CommittedDate`, the merge request's `CreatedAt` and, unless
`SkipTriggerComment` is set, the `UpdatedAt` of the notes whose body contains
`[trigger ci]`; `latest notes ts` is that latest time for any notes and
times, and notes without the marker never count. It is the maximum of those
times as soon as one of them is not before the zero `Time`. With
`SkipTriggerComment` set the notes play no part, and a candidate whose commit
and creation times are not after a cursor that is itself not before the zero
`Time` is skipped whatever its comments are. -/
theorem activity_is_latest_from_zero_time (rt : Runtime) (api : Api) (request : Request)
    (mr : MergeRequest) (commit : Commit)
    (hc : (api.GetCommit mr.ProjectID mr.SHA).value = some commit) :
    (∀ notes ts, IsMaximumOf (latest notes ts) (Time.zero :: stamps notes ts))
      ∧ (∀ notes ts, latest notes ts = latest (notes.filter triggerMarked) ts)
      ∧ IsMaximumOf (activity api request.Source mr commit)
          (Time.zero :: candidateStamps api request.Source mr commit)
      ∧ ((∃ t ∈ candidateStamps api request.Source mr commit, Time.zero ≤ t) →
          IsMaximumOf (activity api request.Source mr commit)
            (candidateStamps api request.Source mr commit))
      ∧ (∀ version post, candidate rt api request mr = .emit version post →
          version.UpdatedAt = some (activity api request.Source mr commit)
            ∧ ∀ prior, request.Version.UpdatedAt = some prior →
                prior < activity api request.Source mr commit)
      ∧ (request.Source.SkipTriggerComment = true →
          candidateStamps api request.Source mr commit
              = [commit.CommittedDate, mr.CreatedAt].filterMap id
            ∧ (∀ api' : Api, api'.GetCommit = api.GetCommit →
                candidate rt api' request mr = candidate rt api request mr)
            ∧ (∀ prior, request.Version.UpdatedAt = some prior → Time.zero ≤ prior →
                (∀ t ∈ [commit.CommittedDate, mr.CreatedAt].filterMap id, t ≤ prior) →
                candidate rt api request mr = .skip)) := by
  have hact := activity_isMaximum api request.Source mr commit
  refine ⟨latest_isMaximum, ?_, hact, ?_, ?_, ?_⟩
  · intro notes ts
    have h1 := latest_isMaximum notes ts
    have h2 := latest_isMaximum (notes.filter triggerMarked) ts
    have hst : stamps (notes.filter triggerMarked) ts = stamps notes ts := by
      simp [stamps, List.filter_filter]
    rw [hst] at h2
    exact isMaximumOf_unique _ _ _ h1 h2
  · rintro ⟨t, ht, h0⟩
    refine ⟨?_, fun u hu => hact.2 u (List.mem_cons_of_mem _ hu)⟩
    rcases List.mem_cons.mp hact.1 with h | h
    · have hle := hact.2 t (List.mem_cons_of_mem _ ht)
      rw [h] at hle
      have : t = Time.zero := le_antisymm hle h0
      rw [h, ← this]; exact ht
    · exact h
  · intro version post hemit
    obtain ⟨he, hv, _, _, _⟩ := candidate_emit rt api request mr version post hemit
    refine ⟨by rw [hv]; simp [versionOf, hc], ?_⟩
    intro prior hp
    obtain ⟨c, hv', hlt⟩ := eligible_after_cursor api request mr prior he hp
    rw [hc] at hv'; cases hv'
    exact hlt
  · intro hskip
    have hcs : candidateStamps api request.Source mr commit
        = [commit.CommittedDate, mr.CreatedAt].filterMap id := by
      simp [candidateStamps, stamps, hskip]
    refine ⟨hcs, ?_, ?_⟩
    · intro api' hg
      simp only [candidate, hg, hskip, Bool.not_true, Bool.false_eq_true, if_false]
    · intro prior hp h0 hle
      have hmem := hact.1
      rw [hcs] at hmem
      have hbound : activity api request.Source mr commit ≤ prior := by
        rcases List.mem_cons.mp hmem with h | h
        · rw [h]; exact h0
        · exact hle _ h
      have hne : eligible api request mr = false := by
        cases he : eligible api request mr with
        | false => rfl
        | true =>
          obtain ⟨c, hv', hlt⟩ := eligible_after_cursor api request mr prior he hp
          rw [hc] at hv'; cases hv'
          exact absurd hlt (not_lt.mpr hbound)
      rw [candidate_eq, hc]; simp [hne]

/-- Witness for C4: merge request 1 of the sample, with commit time 100,
creation time 90, a trigger comment at 150 and a plain comment at 300. Its
activity timestamp is 150; with `SkipTriggerComment` set and the cursor at
120 it is skipped. -/
theorem activity_is_latest_from_zero_time_witness :
    IsMaximumOf (150 : Time) [100, 90, 150]
      ∧ candidate sampleRuntime sampleApi (sampleRequest (some 120))
          (sampleMR 1 "a1" false (some 90)) = .emit ⟨1, some 150⟩ (sampleStatus "a1")
      ∧ candidate sampleRuntime sampleApi
          { Source := { sampleSource with SkipTriggerComment := true }
            Version := { ID := 1, UpdatedAt := some 120 } }
          (sampleMR 1 "a1" false (some 90)) = .skip :=
  ⟨(activity_is_latest_from_zero_time sampleRuntime sampleApi (sampleRequest (some 120))
      (sampleMR 1 "a1" false (some 90)) (sampleCommit "a1" "add feature" (some 100))
      (by decide)).2.2.2.1 ⟨100, by decide, by decide⟩,
   by decide,
   (activity_is_latest_from_zero_time sampleRuntime sampleApi
      { Source := { sampleSource with SkipTriggerComment := true }
        Version := { ID := 1, UpdatedAt := some 120 } }
      (sampleMR 1 "a1" false (some 90)) (sampleCommit "a1" "add feature" (some 100))
      (by decide)).2.2.2.2.2 rfl |>.2.2 120 rfl (by decide) (by decide)⟩

/-- Counterexample to C4 as stated: merge request 5 of the sample has a
commit dated one nanosecond before the zero `Time` and was created one
nanosecond earlier still. It is emitted with the zero `Time` as `UpdatedAt`,
which is not the maximum of its commit and creation times. -/
theorem activity_before_zero_time :
    candidate sampleRuntime sampleApi (sampleRequest none) (sampleMR 5 "e5" false (some (-2)))
        = .emit ⟨5, some 0⟩ (sampleStatus "e5")
      ∧ candidateStamps sampleApi sampleSource (sampleMR 5 "e5" false (some (-2)))
          (sampleCommit "e5" "relic" (some (-1))) = [-1, -2]
      ∧ ¬ IsMaximumOf (0 : Time) [-1, -2] := by
  decide

/-! ## Texts: searching and cutting -/

theorem escape_nil (mode : encoding) : escape [] mode = [] := rfl

end GitlabMR
